import Mathlib

/-!
saltpack: the cryptographic construction layer of `common.go`.

A shallow embedding of `src/common.go` (package `saltpack`) and theorems about it.

Conventions of the embedding.

* A Go `byte` is a `Fin 256`; a Go `string` or the contents of a `[]byte` is a list of bytes.
* A Go slice value that is later re-sliced is a `Slice`: its visible elements together with the
  part of the backing array between its length and its capacity.
* A Go `error` result is an `Option GoError` (`none` is `nil`).
* A function that can panic returns an `Outcome`.
* `io.Writer`s (`bytes.Buffer`, the `hash.Hash` returned by `sha512.New`) are modelled by the
  bytes written to them so far: `hash.Hash.Sum` returns the digest of everything written.
* Declarations of the package that live outside `common.go` (string and length constants,
  `nonceForMACKeyBox`) and the SHA-512 digest function are fields of `Env`.
-/

namespace Saltpack

/-! ## Bytes, slices, results -/

/-- A Go `byte`. -/
abbrev Byte := Fin 256

/-- The contents of a Go `[]byte` or `string`. -/
abbrev Bytes := List Byte

/-- Go's conversion `byte(v)` of an unsigned integer: the low eight bits. -/
def byteOf (v : Nat) : Byte := ⟨v % 256, Nat.mod_lt v (by decide)⟩

/-- A Go slice of bytes: `elems` are the `len(s)` visible elements, `spare` the elements of
the backing array from `len(s)` up to `cap(s)`. -/
structure Slice where
  elems : Bytes
  spare : Bytes
deriving DecidableEq, Repr

/-- Go `len(s)`. -/
def Slice.len (s : Slice) : Nat := s.elems.length

/-- Go `cap(s)`. -/
def Slice.cap (s : Slice) : Nat := s.elems.length + s.spare.length

/-- The backing array seen from the start of the slice, up to its capacity. -/
def Slice.backing (s : Slice) : Bytes := s.elems ++ s.spare

/-- The result of running Go code that may panic. -/
inductive Outcome (α : Type) where
  | ok : α → Outcome α
  | panics : String → Outcome α
deriving DecidableEq, Repr

/-- Whether a run ended in a panic. -/
def Outcome.isPanic {α : Type} : Outcome α → Bool
  | .ok _ => false
  | .panics _ => true

/-- The runtime panic of an out-of-range slice expression. -/
def sliceBoundsMsg : String := "runtime error: slice bounds out of range"

/-- Go's slice expression `s[lo:hi]` on a slice: it needs `lo ≤ hi ≤ cap(s)` and panics
otherwise; the result shares the backing array. -/
def Slice.slice (s : Slice) (lo hi : Nat) : Outcome Slice :=
  if lo ≤ hi ∧ hi ≤ s.cap then
    .ok { elems := (s.backing.drop lo).take (hi - lo), spare := s.backing.drop hi }
  else
    .panics sliceBoundsMsg

/-- The slice `append([]byte(nil), b...)` hands back from `Sum(nil)`: the bytes and no
spare capacity. -/
def Slice.ofBytes (b : Bytes) : Slice := { elems := b, spare := [] }

/-- The package's error values named in `common.go` (their declarations are outside it), and
any other error a collaborator may report. -/
inductive GoError where
  | ErrPacketOverflow
  | ErrInsufficientRandomness
  | ErrTrailingGarbage
  | other (msg : String)
deriving DecidableEq, Repr

/-! ## The environment of `common.go` -/

/-- Modelled from the spec: the array type `Nonce` is declared outside `common.go`; the spec
fixes the nonce length at 24 bytes. -/
abbrev Nonce := { n : Bytes // n.length = 24 }

/-- Declarations used by `common.go` that are made elsewhere, taken as parameters: the
package's string and length constants, the function `nonceForMACKeyBox`, and the digest
function of `crypto/sha512`. -/
structure Env where
  SaltpackFormatName : Bytes
  SignatureAttachedString : Bytes
  SignatureDetachedString : Bytes
  CryptoAuthKeyBytes : Nat
  CryptoAuthBytes : Nat
  nonceForMACKeyBox : Bytes → Nonce
  sha512 : Bytes → Bytes

/-- The digest length `sha512.Size`. -/
def sha512.Size : Nat := 64

/-- The block length `sha512.BlockSize`. -/
def sha512.BlockSize : Nat := 128

/-- The constant `poly1305.TagSize` of `golang.org/x/crypto/poly1305`. -/
def poly1305.TagSize : Nat := 16

/-- Modelled from the spec: the struct `SignatureBlock` is declared outside `common.go`; the
spec gives it as `{seqno: BlockNumber, PayloadChunk: bytes}` with an unsigned 64-bit block
number, the two fields `attachedSignatureInput` reads. -/
structure SignatureBlock where
  seqno : Nat
  PayloadChunk : Bytes
deriving DecidableEq, Repr

/-! ## `encryptionBlockNumber.check` -/

/-- The method `(e encryptionBlockNumber) check()`: `ErrPacketOverflow` once `e` has reached
`0xffffffffffffffff`.  The type `encryptionBlockNumber` is `uint64`: `e` is a natural number
below `2 ^ 64`. -/
def encryptionBlockNumber.check (e : Nat) : Option GoError :=
  if e ≥ 0xffffffffffffffff then
    some GoError.ErrPacketOverflow
  else
    none

/-- The spec's reading of the ceiling test (`current == ceiling`), for comparison with the
`>=` of the code. -/
def checkAtCeilingSpec (e : Nat) : Option GoError :=
  if e = 2 ^ 64 - 1 then some GoError.ErrPacketOverflow else none

/-! ## Writers: `bytes.Buffer`, `hash.Hash`, `encoding/binary` -/

/-- An `io.Writer`, seen through its effect: `Write w p` is the writer after `p` was written
to it.  (The Go code ignores the error results of every `Write` in this file.) -/
class Writer (ω : Type) where
  Write : ω → Bytes → ω

/-- A `bytes.Buffer`: the bytes written so far. -/
structure Buffer where
  buf : Bytes
deriving DecidableEq, Repr

/-- The zero value `var buf bytes.Buffer`. -/
def Buffer.empty : Buffer := { buf := [] }

/-- The method `(*bytes.Buffer).Write`: append. -/
def Buffer.Write (b : Buffer) (p : Bytes) : Buffer := { buf := b.buf ++ p }

/-- The method `(*bytes.Buffer).Bytes`: the unread contents. -/
def Buffer.Bytes (b : Buffer) : Bytes := b.buf

instance : Writer Buffer where
  Write := Buffer.Write

/-- The state of a `hash.Hash`: the data written so far. -/
structure Hash where
  written : Bytes
deriving DecidableEq, Repr

/-- The fresh hash state of `sha512.New()`. -/
def sha512.New : Hash := { written := [] }

/-- The method `hash.Hash.Write`: adds more data to the running hash. -/
def Hash.Write (h : Hash) (p : Bytes) : Hash := { written := h.written ++ p }

/-- The method `hash.Hash.Sum(b)`: appends the digest of the data written so far to `b`. -/
def Hash.Sum (E : Env) (h : Hash) (b : Bytes) : Bytes := b ++ E.sha512 h.written

instance : Writer Hash where
  Write := Hash.Write

/-- The method `binary.BigEndian.PutUint64`: `b[0] = byte(v >> 56)`, ..., `b[7] = byte(v)`. -/
def BigEndian.PutUint64 (v : Nat) : Bytes :=
  [byteOf (v >>> 56), byteOf (v >>> 48), byteOf (v >>> 40), byteOf (v >>> 32),
   byteOf (v >>> 24), byteOf (v >>> 16), byteOf (v >>> 8), byteOf v]

/-- The call `binary.Write(w, binary.BigEndian, data)` for a `uint64` value: the eight bytes
of `PutUint64` are written to `w`. -/
def binary.WriteBigEndianUint64 {ω : Type} [Writer ω] (w : ω) (data : Nat) : ω :=
  Writer.Write w (BigEndian.PutUint64 data)

/-- The spec's `big-endian 8-byte seqno`: the eight base-256 digits of `s`, most significant
first. -/
def BE8 (s : Nat) : Bytes :=
  (List.range 8).map (fun i => byteOf (s / 256 ^ (7 - i)))

/-- The number a big-endian byte string denotes. -/
def beDecode (b : Bytes) : Nat := b.foldl (fun acc x => acc * 256 + x.val) 0

/-! ## The functions of `common.go` -/

/-- The function `writeNullTerminatedString`: the bytes of `s`, then a zero byte. -/
def writeNullTerminatedString {ω : Type} [Writer ω] (w : ω) (s : Bytes) : ω :=
  let w := Writer.Write w s
  Writer.Write w [0]

/-- The function `attachedSignatureInput`. -/
def attachedSignatureInput (E : Env) (headerHash : Bytes) (block : SignatureBlock) : Bytes :=
  let hasher := sha512.New
  let hasher := hasher.Write headerHash
  let hasher := binary.WriteBigEndianUint64 hasher block.seqno
  let hasher := hasher.Write block.PayloadChunk
  let buf := Buffer.empty
  let buf := writeNullTerminatedString buf E.SaltpackFormatName
  let buf := writeNullTerminatedString buf E.SignatureAttachedString
  let buf := buf.Write (hasher.Sum E [])
  buf.Bytes

/-- The function `detachedSignatureInputFromHash`. -/
def detachedSignatureInputFromHash (E : Env) (plaintextAndHeaderHash : Bytes) : Bytes :=
  let buf := Buffer.empty
  let buf := writeNullTerminatedString buf E.SaltpackFormatName
  let buf := writeNullTerminatedString buf E.SignatureDetachedString
  let buf := buf.Write plaintextAndHeaderHash
  buf.Bytes

/-- The function `detachedSignatureInput`. -/
def detachedSignatureInput (E : Env) (headerHash : Bytes) (plaintext : Bytes) : Bytes :=
  let hasher := sha512.New
  let hasher := hasher.Write headerHash
  let hasher := hasher.Write plaintext
  detachedSignatureInputFromHash E (hasher.Sum E [])

/-! ### `crypto/hmac` -/

/-- The key block of `hmac.New`: a key longer than the hash's block size is replaced by its
digest, then `copy` places it at the start of a zeroed block. -/
def hmac.keyBlock (E : Env) (key : Bytes) : Bytes :=
  let key := if key.length > sha512.BlockSize then (sha512.New.Write key).Sum E [] else key
  key.take sha512.BlockSize ++ List.replicate (sha512.BlockSize - key.length) 0

/-- The state of the `hash.Hash` returned by `hmac.New(sha512.New, key)`: the outer pad and
the inner hash, which has already absorbed the inner pad. -/
structure HMAC where
  opad : Bytes
  inner : Hash
deriving DecidableEq, Repr

/-- The function `hmac.New(sha512.New, key)`. -/
def hmac.New (E : Env) (key : Bytes) : HMAC :=
  let block := hmac.keyBlock E key
  let ipad := block.map (fun b => b ^^^ 0x36)
  let opad := block.map (fun b => b ^^^ 0x5c)
  { opad := opad, inner := sha512.New.Write ipad }

/-- The method `Write` of an HMAC: the data goes to the inner hash. -/
def HMAC.Write (h : HMAC) (p : Bytes) : HMAC := { h with inner := h.inner.Write p }

/-- The method `Sum(nil)` of an HMAC: the outer hash of the outer pad and the inner digest,
in a freshly allocated slice. -/
def HMAC.Sum (E : Env) (h : HMAC) : Slice :=
  let inner := h.inner.Sum E []
  let outer := sha512.New
  let outer := outer.Write h.opad
  let outer := outer.Write inner
  Slice.ofBytes (outer.Sum E [])

/-- HMAC-SHA512 as RFC 2104 writes it: `H((K xor opad) ++ H((K xor ipad) ++ text))`. -/
def HMAC_SHA512 (E : Env) (key input : Bytes) : Bytes :=
  let k := hmac.keyBlock E key
  E.sha512 (k.map (fun b => b ^^^ 0x5c) ++ E.sha512 (k.map (fun b => b ^^^ 0x36) ++ input))

/-! ### MAC, MAC key, payload hash -/

/-- The function `hmacSHA512256`. -/
def hmacSHA512256 (E : Env) (key : Bytes) (input : Bytes) : Outcome Slice :=
  if key.length ≠ E.CryptoAuthKeyBytes then
    .panics "Bad crypto_auth key length"
  else
    let authenticatorDigest := hmac.New E key
    let authenticatorDigest := authenticatorDigest.Write input
    let fullMAC := authenticatorDigest.Sum E
    fullMAC.slice 0 E.CryptoAuthBytes

/-- The interface `BoxSecretKey` (declared outside `common.go`), taken as a parameter and
reduced to the method `Box` that `computeMACKey` calls; `PK` is the type of the peer's
`BoxPublicKey`, and the result is the Go slice the implementation returns. -/
structure BoxSecretKey (PK : Type) where
  Box : PK → Nonce → Bytes → Slice

/-- The function `computeMACKey`. -/
def computeMACKey {PK : Type} (E : Env) (secret : BoxSecretKey PK) (pub : PK)
    (headerHash : Bytes) : Outcome Slice :=
  let nonce := E.nonceForMACKeyBox headerHash
  let macKeyBox := secret.Box pub nonce (List.replicate E.CryptoAuthKeyBytes 0)
  let macKey := macKeyBox.slice poly1305.TagSize (poly1305.TagSize + E.CryptoAuthKeyBytes)
  macKey

/-- The function `computePayloadHash`; `nonce[:]` is the 24 bytes of the nonce. -/
def computePayloadHash (E : Env) (headerHash : Bytes) (nonce : Nonce)
    (payloadCiphertext : Bytes) : Bytes :=
  let payloadDigest := sha512.New
  let payloadDigest := payloadDigest.Write headerHash
  let payloadDigest := payloadDigest.Write nonce.val
  let payloadDigest := payloadDigest.Write payloadCiphertext
  payloadDigest.Sum E []

/-! ### Concrete environments -/

/-- The bytes of an ASCII string literal. -/
def ascii (s : String) : Bytes := s.toList.map (fun c => byteOf c.toNat)

/-- Modelled from the spec: the constants `SaltpackFormatName`, `SignatureAttachedString`,
`SignatureDetachedString`, `CryptoAuthKeyBytes` and `CryptoAuthBytes` are declared outside
`common.go`.  The spec fixes the domain tags `"attached-signature"` and `"detached-signature"`,
a MAC key of 32 bytes and a MAC tag of 16 bytes; it leaves the format name open, for which the
package name is taken.  The nonce derivation and the digest function stay parameters. -/
def specEnv (nonceForMACKeyBox : Bytes → Nonce) (sha512 : Bytes → Bytes) : Env :=
  { SaltpackFormatName := ascii "saltpack"
    SignatureAttachedString := ascii "attached-signature"
    SignatureDetachedString := ascii "detached-signature"
    CryptoAuthKeyBytes := 32
    CryptoAuthBytes := 16
    nonceForMACKeyBox := nonceForMACKeyBox
    sha512 := sha512 }

/-- A stand-in digest function with 64-byte output, for evaluating the functions on concrete
inputs: the first 64 bytes of the zero-padded message. -/
def sampleDigest (m : Bytes) : Bytes := (m ++ List.replicate 64 0).take 64

/-- A stand-in nonce derivation: the first 24 bytes of the zero-padded header hash. -/
def sampleNonce (headerHash : Bytes) : Nonce :=
  ⟨(headerHash ++ List.replicate 24 0).take 24, by simp⟩

/-- The spec's constants with the stand-in functions. -/
def sampleEnv : Env := specEnv sampleNonce sampleDigest

/-- A stand-in box: a 16-byte tag followed by the message xor-ed with the first nonce byte. -/
def sampleBox : BoxSecretKey Unit :=
  { Box := fun _ nonce msg =>
      Slice.ofBytes (List.replicate 16 0xaa ++ msg.map (fun b => b ^^^ nonce.val.headD 0)) }

/-! ### Random source and framed stream -/

/-- The error value `io.EOF`. -/
def io.EOF : GoError := GoError.other "EOF"

/-- The random source behind `rand.Read` (package `crypto/rand`), taken as a parameter: from
its state and the buffer handed in, a call gives the next state, the buffer as it was left,
the count `n` and the error. -/
structure RandReader (ρ : Type) where
  Read : ρ → Bytes → ρ × Bytes × Int × Option GoError

/-- The function `randomFill`, run against a random source in state `r`: the error returned,
with the buffer and the source as the call leaves them. -/
def randomFill {ρ : Type} (rand : RandReader ρ) (r : ρ) (b : Bytes) :
    Option GoError × Bytes × ρ :=
  let l : Int := b.length
  match rand.Read r b with
  | (r, b, n, err) =>
    if err ≠ none then
      (err, b, r)
    else if n ≠ l then
      (some GoError.ErrInsufficientRandomness, b, r)
    else
      (none, b, r)

/-- Modelled from the spec: the type `msgpackStream` and its method `Read` are declared outside
`common.go`.  The spec gives the framed stream reader as `ReadValue() -> (value, error)`, which
fails cleanly with end-of-stream when nothing is left.  A stream is the list of the outcomes
its next reads will have, each a decoded value or the error of a failed decoding. -/
structure msgpackStream where
  pending : List (Except GoError Bytes)

/-- The method `(*msgpackStream).Read`: the next outcome is consumed, a decoded value is stored
through the pointer argument and the error is returned; at the end of the stream the error
is `io.EOF`. -/
def msgpackStream.Read (stream : msgpackStream) : (Option Bytes × Option GoError) × msgpackStream :=
  match stream.pending with
  | [] => ((none, some io.EOF), stream)
  | .ok v :: rest => ((some v, none), { pending := rest })
  | .error e :: rest => ((none, some e), { pending := rest })

/-- The function `assertEndOfStream`: the error returned, and the stream after the read. -/
def assertEndOfStream (stream : msgpackStream) : Option GoError × msgpackStream :=
  match stream.Read with
  | ((_, err), stream) =>
    let err := if err = none then some GoError.ErrTrailingGarbage else err
    (err, stream)

/-- A stand-in random source that always stops one byte short of the buffer. -/
def shortRand : RandReader Unit :=
  { Read := fun r b => (r, b, (b.length : Int) - 1, none) }

/-- A stand-in random source that fills the whole buffer with the byte `0x2a`. -/
def fullRand : RandReader Unit :=
  { Read := fun r b => (r, b.map (fun _ => 0x2a), (b.length : Int), none) }

/-! ### Notions used to state the properties -/

/-- The byte string `xs'` is `xs` with the byte at one position replaced by a different byte
(same length). -/
def singleByteChange (xs xs' : Bytes) : Prop :=
  ∃ (i : Nat) (b : Byte), i < xs.length ∧ xs[i]? ≠ some b ∧ xs' = xs.set i b

/-- Exactly one of the three authenticated inputs has a single byte changed, the other two
are the same. -/
def oneInputMutated (h : Bytes) (n : Nonce) (c : Bytes) (h' : Bytes) (n' : Nonce) (c' : Bytes) :
    Prop :=
  (singleByteChange h h' ∧ n = n' ∧ c = c') ∨
  (h = h' ∧ singleByteChange n.val n'.val ∧ c = c') ∨
  (h = h' ∧ n = n' ∧ singleByteChange c c')

/-- The bytes `attachedSignatureInput` has written to its hasher when it takes the digest. -/
def attachedHashedString (headerHash : Bytes) (block : SignatureBlock) : Bytes :=
  let hasher := sha512.New
  let hasher := hasher.Write headerHash
  let hasher := binary.WriteBigEndianUint64 hasher block.seqno
  let hasher := hasher.Write block.PayloadChunk
  hasher.written

/-- A stand-in digest function with 64-byte output that depends on every byte of the message:
64 copies of the sum of the bytes modulo 256. -/
def sumDigest (m : Bytes) : Bytes := List.replicate 64 (m.foldl (fun a b => a + b) 0)

/-- The spec's constants with the byte-sum digest. -/
def sumEnv : Env := specEnv sampleNonce sumDigest

/-! ### `computeMACKey` in a world with randomness and mutable state -/

/-- The interface `BoxSecretKey` when an implementation of `Box` is allowed to consult and
change the world `W` (the state of every random source and mutable variable of the process):
the call returns its slice and the world it leaves. -/
structure BoxSecretKeyIn (W PK : Type) where
  Box : PK → Nonce → Bytes → W → Slice × W

/-- The function `computeMACKey`, run in a world `w`: the statements are executed in the
order of the source, each call receives the world the previous one left, and the function
itself reads nothing of the world.  The nonce derivation `nonceForMACKeyBox` (declared outside
`common.go`) is a parameter that may use the world as well. -/
def computeMACKeyIn {W PK : Type} (E : Env) (nonceForMACKeyBox : Bytes → W → Nonce × W)
    (secret : BoxSecretKeyIn W PK) (pub : PK) (headerHash : Bytes) (w : W) :
    Outcome Slice × W :=
  match nonceForMACKeyBox headerHash w with
  | (nonce, w) =>
    match secret.Box pub nonce (List.replicate E.CryptoAuthKeyBytes 0) w with
    | (macKeyBox, w) =>
      let macKey := macKeyBox.slice poly1305.TagSize (poly1305.TagSize + E.CryptoAuthKeyBytes)
      (macKey, w)

/-- A stand-in nonce derivation that counts its calls in the world and derives the nonce from
the header hash alone. -/
def countingNonce (headerHash : Bytes) (w : Nat) : Nonce × Nat :=
  (sampleNonce headerHash, w + 1)

/-- A stand-in box that counts its calls in the world and computes its output from the nonce
and the message alone. -/
def countingBox : BoxSecretKeyIn Nat Unit :=
  { Box := fun pub nonce msg w => (sampleBox.Box pub nonce msg, w + 1) }

/-- A stand-in box that is not deterministic: it masks the message with a byte it draws from
the world. -/
def randomizedBox : BoxSecretKeyIn Nat Unit :=
  { Box := fun _ _ msg w =>
      (Slice.ofBytes (List.replicate 16 0 ++ msg.map (fun b => b + byteOf w)), w + 1) }

/-! ## Theorems -/

/-- C1: for an unsigned 64-bit block number `e`, `check` returns `ErrPacketOverflow` exactly
when `e = 2^64 - 1`, returns `nil` for every `e < 2^64 - 1`, and agrees with the `==`
reading of the ceiling test. -/
theorem check_overflow_iff_ceiling (e : Nat) (he : e < 2 ^ 64) :
    (encryptionBlockNumber.check e = some GoError.ErrPacketOverflow ↔ e = 2 ^ 64 - 1) ∧
    (e < 2 ^ 64 - 1 → encryptionBlockNumber.check e = none) ∧
    (encryptionBlockNumber.check e = none ∨
      encryptionBlockNumber.check e = some GoError.ErrPacketOverflow) ∧
    encryptionBlockNumber.check e = checkAtCeilingSpec e := by
  unfold encryptionBlockNumber.check checkAtCeilingSpec
  have h64 : (2 : Nat) ^ 64 = 18446744073709551616 := by norm_num
  rw [h64] at he ⊢
  by_cases h : e ≥ 0xffffffffffffffff
  · have : e = 18446744073709551615 := by omega
    subst this
    simp
  · have hne : e ≠ 18446744073709551616 - 1 := by omega
    have hlt : e < 18446744073709551616 - 1 := by omega
    simp [h, hne]

/-- Boundary instances of C1: `check` succeeds at ceiling - 1 and fails at the ceiling. -/
theorem check_overflow_iff_ceiling_witness :
    encryptionBlockNumber.check (2 ^ 64 - 2) = none ∧
    encryptionBlockNumber.check (2 ^ 64 - 1) = some GoError.ErrPacketOverflow := by
  have h1 := check_overflow_iff_ceiling (2 ^ 64 - 2) (by norm_num)
  have h2 := check_overflow_iff_ceiling (2 ^ 64 - 1) (by norm_num)
  exact ⟨h1.2.1 (by norm_num), h2.1.2 rfl⟩

/-! ### Big-endian encoding -/

theorem PutUint64_eq_BE8 (v : Nat) : BigEndian.PutUint64 v = BE8 v := by
  simp [BigEndian.PutUint64, BE8, List.range, List.range.loop, Nat.shiftRight_eq_div_pow]

theorem BE8_length (s : Nat) : (BE8 s).length = 8 := by
  simp [BE8]

theorem beDecode_BE8 (s : Nat) : beDecode (BE8 s) = s % 2 ^ 64 := by
  simp [BE8, beDecode, byteOf, List.range, List.range.loop]
  omega

theorem BE8_injective (s t : Nat) (hs : s < 2 ^ 64) (ht : t < 2 ^ 64) (h : BE8 s = BE8 t) :
    s = t := by
  have hd := congrArg beDecode h
  rw [beDecode_BE8, beDecode_BE8, Nat.mod_eq_of_lt hs, Nat.mod_eq_of_lt ht] at hd
  exact hd

/-! ### Signature pre-images -/

theorem attachedSignatureInput_unfold (E : Env) (headerHash : Bytes) (block : SignatureBlock) :
    attachedSignatureInput E headerHash block =
      E.SaltpackFormatName ++ ([0] ++ (E.SignatureAttachedString ++ ([0] ++
        E.sha512 (headerHash ++ (BE8 block.seqno ++ block.PayloadChunk))))) := by
  simp [attachedSignatureInput, writeNullTerminatedString, Writer.Write, Buffer.Write,
    Buffer.Bytes, Buffer.empty, Hash.Write, Hash.Sum, sha512.New, binary.WriteBigEndianUint64,
    PutUint64_eq_BE8]

theorem detachedSignatureInputFromHash_unfold (E : Env) (h : Bytes) :
    detachedSignatureInputFromHash E h =
      E.SaltpackFormatName ++ ([0] ++ (E.SignatureDetachedString ++ ([0] ++ h))) := by
  simp [detachedSignatureInputFromHash, writeNullTerminatedString, Writer.Write, Buffer.Write,
    Buffer.Bytes, Buffer.empty]

theorem detachedSignatureInput_unfold (E : Env) (headerHash plaintext : Bytes) :
    detachedSignatureInput E headerHash plaintext =
      detachedSignatureInputFromHash E (E.sha512 (headerHash ++ plaintext)) := by
  simp [detachedSignatureInput, Hash.Write, Hash.Sum, sha512.New]

/-- C2: `attachedSignatureInput` is the format name, a zero byte, the attached-signature tag,
a zero byte, and the SHA-512 digest of `headerHash ++ BE8(seqno) ++ PayloadChunk`, where
`BE8(seqno)` is eight bytes long and denotes `seqno` (as a 64-bit value) in big-endian. -/
theorem attachedSignatureInput_eq (E : Env) (headerHash : Bytes) (block : SignatureBlock) :
    attachedSignatureInput E headerHash block =
        E.SaltpackFormatName ++ [0] ++ E.SignatureAttachedString ++ [0] ++
          E.sha512 (headerHash ++ BE8 block.seqno ++ block.PayloadChunk) ∧
      (BE8 block.seqno).length = 8 ∧
      beDecode (BE8 block.seqno) = block.seqno % 2 ^ 64 := by
  refine ⟨?_, BE8_length _, beDecode_BE8 _⟩
  rw [attachedSignatureInput_unfold]
  simp [List.append_assoc]

/-- C3: `detachedSignatureInput` hashes `headerHash ++ plaintext` and hands the digest to
`detachedSignatureInputFromHash`, which appends the hash it is given, unchanged, to the format
name, a zero byte, the detached-signature tag and a zero byte. -/
theorem detachedSignatureInput_eq (E : Env) :
    (∀ headerHash plaintext : Bytes,
      detachedSignatureInput E headerHash plaintext =
        detachedSignatureInputFromHash E (E.sha512 (headerHash ++ plaintext))) ∧
    (∀ h : Bytes,
      detachedSignatureInputFromHash E h =
        E.SaltpackFormatName ++ [0] ++ E.SignatureDetachedString ++ [0] ++ h) := by
  refine ⟨fun headerHash plaintext => detachedSignatureInput_unfold E headerHash plaintext, ?_⟩
  intro h
  rw [detachedSignatureInputFromHash_unfold]
  simp [List.append_assoc]

/-! ### Domain separation -/

/-- Two byte strings without a zero byte, each followed by a zero byte and arbitrary data:
if the results agree, so do the strings and the data. -/
theorem nullTerminated_cancel (a d x y : Bytes) (ha : (0 : Byte) ∉ a) (hd : (0 : Byte) ∉ d)
    (h : a ++ ([0] ++ x) = d ++ ([0] ++ y)) : a = d ∧ x = y := by
  induction a generalizing d with
  | nil =>
    cases d with
    | nil => simpa using h
    | cons b d =>
      simp only [List.nil_append, List.cons_append, List.singleton_append,
        List.cons.injEq] at h
      exact absurd (by rw [← h.1]; exact List.mem_cons_self _ _) hd
  | cons b a ih =>
    cases d with
    | nil =>
      simp only [List.nil_append, List.cons_append, List.singleton_append,
        List.cons.injEq] at h
      exact absurd (by rw [h.1]; exact List.mem_cons_self _ _) ha
    | cons c d =>
      simp only [List.cons_append, List.cons.injEq] at h
      have ha' : (0 : Byte) ∉ a := fun hm => ha (List.mem_cons_of_mem _ hm)
      have hd' : (0 : Byte) ∉ d := fun hm => hd (List.mem_cons_of_mem _ hm)
      obtain ⟨e1, e2⟩ := ih d ha' hd' h.2
      exact ⟨by rw [h.1, e1], e2⟩

theorem attached_ne_detachedFromHash (E : Env)
    (hne : E.SignatureAttachedString ≠ E.SignatureDetachedString)
    (ha : (0 : Byte) ∉ E.SignatureAttachedString)
    (hd : (0 : Byte) ∉ E.SignatureDetachedString)
    (H : Bytes) (block : SignatureBlock) (h : Bytes) :
    attachedSignatureInput E H block ≠ detachedSignatureInputFromHash E h := by
  rw [attachedSignatureInput_unfold, detachedSignatureInputFromHash_unfold]
  intro heq
  have h2 := List.append_cancel_left heq
  have h3 := List.append_cancel_left h2
  exact hne (nullTerminated_cancel _ _ _ _ ha hd h3).1

/-- C4: when the attached and detached tags are distinct and contain no zero byte, an attached
signature pre-image is never a detached one, neither of `detachedSignatureInput` nor of
`detachedSignatureInputFromHash`, whatever the header hashes, block, plaintext and hash are;
in particular for block `{seqno: 0, chunk: C}` against plaintext `C` under the same header
hash. -/
theorem attached_detached_domain_separation (E : Env)
    (hne : E.SignatureAttachedString ≠ E.SignatureDetachedString)
    (ha : (0 : Byte) ∉ E.SignatureAttachedString)
    (hd : (0 : Byte) ∉ E.SignatureDetachedString) :
    (∀ (H H' : Bytes) (block : SignatureBlock) (C : Bytes),
      attachedSignatureInput E H block ≠ detachedSignatureInput E H' C) ∧
    (∀ (H : Bytes) (block : SignatureBlock) (h : Bytes),
      attachedSignatureInput E H block ≠ detachedSignatureInputFromHash E h) ∧
    (∀ (H C : Bytes),
      attachedSignatureInput E H { seqno := 0, PayloadChunk := C } ≠
        detachedSignatureInput E H C) := by
  refine ⟨?_, ?_, ?_⟩
  · intro H H' block C
    rw [detachedSignatureInput_unfold]
    exact attached_ne_detachedFromHash E hne ha hd H block _
  · intro H block h
    exact attached_ne_detachedFromHash E hne ha hd H block h
  · intro H C
    rw [detachedSignatureInput_unfold]
    exact attached_ne_detachedFromHash E hne ha hd H _ _

/-- C4 at the spec's tags: the hypotheses hold there, and the pre-images of the empty chunk
under the empty header hash differ between the two modes. -/
theorem attached_detached_domain_separation_witness :
    sampleEnv.SignatureAttachedString ≠ sampleEnv.SignatureDetachedString ∧
    (0 : Byte) ∉ sampleEnv.SignatureAttachedString ∧
    (0 : Byte) ∉ sampleEnv.SignatureDetachedString ∧
    attachedSignatureInput sampleEnv [] { seqno := 0, PayloadChunk := [] } ≠
      detachedSignatureInput sampleEnv [] [] :=
  ⟨by decide, by decide, by decide,
    (attached_detached_domain_separation sampleEnv (by decide) (by decide) (by decide)).2.2
      [] []⟩

/-- C5: for 64-bit sequence numbers `s1 ≠ s2`, the strings `H ++ BE8(s1) ++ C` and
`H ++ BE8(s2) ++ C` that `attachedSignatureInput` hashes are different, and whenever the
digest function does not collide on them the two attached pre-images differ. -/
theorem attached_seqno_separation (E : Env) (H C : Bytes) (s1 s2 : Nat)
    (h1 : s1 < 2 ^ 64) (h2 : s2 < 2 ^ 64) (hne : s1 ≠ s2) :
    H ++ BE8 s1 ++ C ≠ H ++ BE8 s2 ++ C ∧
    (E.sha512 (H ++ BE8 s1 ++ C) ≠ E.sha512 (H ++ BE8 s2 ++ C) →
      attachedSignatureInput E H { seqno := s1, PayloadChunk := C } ≠
        attachedSignatureInput E H { seqno := s2, PayloadChunk := C }) := by
  constructor
  · intro heq
    rw [List.append_assoc, List.append_assoc] at heq
    have h3 := List.append_cancel_left heq
    have h4 := List.append_cancel_right h3
    exact hne (BE8_injective s1 s2 h1 h2 h4)
  · intro hcol heq
    rw [attachedSignatureInput_unfold, attachedSignatureInput_unfold] at heq
    have h3 := List.append_cancel_left (List.append_cancel_left (List.append_cancel_left
      (List.append_cancel_left heq)))
    apply hcol
    simpa [List.append_assoc] using h3

/-- C5 at sequence numbers 0 and 1 with the identical payload `"hello"`. -/
theorem attached_seqno_separation_witness :
    (0 : Nat) < 2 ^ 64 ∧ (1 : Nat) < 2 ^ 64 ∧ (0 : Nat) ≠ 1 ∧
    sampleEnv.sha512 ([] ++ BE8 0 ++ ascii "hello") ≠
      sampleEnv.sha512 ([] ++ BE8 1 ++ ascii "hello") ∧
    attachedSignatureInput sampleEnv [] { seqno := 0, PayloadChunk := ascii "hello" } ≠
      attachedSignatureInput sampleEnv [] { seqno := 1, PayloadChunk := ascii "hello" } :=
  ⟨by norm_num, by norm_num, by decide, by decide,
    (attached_seqno_separation sampleEnv [] (ascii "hello") 0 1 (by norm_num) (by norm_num)
      (by decide)).2 (by decide)⟩

/-! ### MAC key -/

theorem Slice.slice_ok (s : Slice) (lo hi : Nat) (h1 : lo ≤ hi) (h2 : hi ≤ s.cap) :
    s.slice lo hi =
      .ok { elems := (s.backing.drop lo).take (hi - lo), spare := s.backing.drop hi } := by
  simp [Slice.slice, h1, h2]

theorem Slice.slice_elems_of_le_len (s : Slice) (lo hi : Nat) (h2 : hi ≤ s.len) :
    (s.backing.drop lo).take (hi - lo) = (s.elems.drop lo).take (hi - lo) := by
  unfold Slice.len at h2
  unfold Slice.backing
  apply List.ext_getElem?
  intro i
  by_cases hi' : i < hi - lo
  · rw [List.getElem?_take_of_lt hi', List.getElem?_take_of_lt hi', List.getElem?_drop,
      List.getElem?_drop, List.getElem?_append_left (by omega)]
  · have : hi - lo ≤ i := by omega
    rw [List.getElem?_eq_none (by simp; omega), List.getElem?_eq_none (by simp; omega)]

/-- C6: `computeMACKey` boxes the all-zero string of length `CryptoAuthKeyBytes` under the
nonce `nonceForMACKeyBox(headerHash)`; when the box has the positions up to
`poly1305.TagSize + CryptoAuthKeyBytes` the result is the `CryptoAuthKeyBytes` bytes at
positions `[TagSize, TagSize + CryptoAuthKeyBytes)` of the box, and when the box is exactly
`TagSize + len(Z)` long it is all of the box after the 16-byte tag. -/
theorem computeMACKey_eq_box_positions {PK : Type} (E : Env) (secret : BoxSecretKey PK)
    (pub : PK) (headerHash : Bytes) :
    (poly1305.TagSize + E.CryptoAuthKeyBytes ≤
        (secret.Box pub (E.nonceForMACKeyBox headerHash)
          (List.replicate E.CryptoAuthKeyBytes 0)).len →
      ∃ macKey, computeMACKey E secret pub headerHash = .ok macKey ∧
        macKey.elems.length = E.CryptoAuthKeyBytes ∧
        ∀ i, i < E.CryptoAuthKeyBytes →
          macKey.elems[i]? =
            (secret.Box pub (E.nonceForMACKeyBox headerHash)
              (List.replicate E.CryptoAuthKeyBytes 0)).elems[poly1305.TagSize + i]?) ∧
    ((secret.Box pub (E.nonceForMACKeyBox headerHash)
          (List.replicate E.CryptoAuthKeyBytes 0)).len =
        poly1305.TagSize + (List.replicate E.CryptoAuthKeyBytes (0 : Byte)).length →
      ∃ macKey, computeMACKey E secret pub headerHash = .ok macKey ∧
        macKey.elems =
          (secret.Box pub (E.nonceForMACKeyBox headerHash)
            (List.replicate E.CryptoAuthKeyBytes 0)).elems.drop poly1305.TagSize) := by
  have hrun : ∀ box : Slice,
      secret.Box pub (E.nonceForMACKeyBox headerHash)
        (List.replicate E.CryptoAuthKeyBytes 0) = box →
      poly1305.TagSize + E.CryptoAuthKeyBytes ≤ box.len →
      computeMACKey E secret pub headerHash =
        .ok { elems := (box.elems.drop poly1305.TagSize).take E.CryptoAuthKeyBytes,
              spare := box.backing.drop (poly1305.TagSize + E.CryptoAuthKeyBytes) } := by
    intro box hb hlen
    have hcap : box.len ≤ box.cap := by unfold Slice.len Slice.cap; omega
    unfold computeMACKey
    simp only [hb]
    rw [Slice.slice_ok box _ _ (by omega) (by omega),
      Slice.slice_elems_of_le_len box _ _ hlen]
    simp
  generalize hb : secret.Box pub (E.nonceForMACKeyBox headerHash)
    (List.replicate E.CryptoAuthKeyBytes 0) = box
  constructor
  · intro hlen
    refine ⟨_, hrun box hb hlen, ?_, ?_⟩
    · unfold Slice.len at hlen
      simp only [List.length_take, List.length_drop]
      omega
    · intro i hi
      simp only []
      rw [List.getElem?_take_of_lt (by omega), List.getElem?_drop]
  · intro hlen
    rw [List.length_replicate] at hlen
    refine ⟨_, hrun box hb (le_of_eq hlen.symm), ?_⟩
    unfold Slice.len at hlen
    apply List.take_of_length_le
    simp only [List.length_drop]
    omega

/-- C6 at the spec's lengths: the stand-in box of the 32 zero bytes is 48 bytes long, and the
MAC key is its bytes 16 to 47. -/
theorem computeMACKey_eq_box_positions_witness :
    poly1305.TagSize + sampleEnv.CryptoAuthKeyBytes ≤
        (sampleBox.Box () (sampleEnv.nonceForMACKeyBox [])
          (List.replicate sampleEnv.CryptoAuthKeyBytes 0)).len ∧
      ∃ macKey, computeMACKey sampleEnv sampleBox () [] = .ok macKey ∧
        macKey.elems.length = sampleEnv.CryptoAuthKeyBytes ∧
        ∀ i, i < sampleEnv.CryptoAuthKeyBytes →
          macKey.elems[i]? =
            (sampleBox.Box () (sampleEnv.nonceForMACKeyBox [])
              (List.replicate sampleEnv.CryptoAuthKeyBytes 0)).elems[poly1305.TagSize + i]? :=
  ⟨by decide, (computeMACKey_eq_box_positions sampleEnv sampleBox () []).1 (by decide)⟩

/-! ### HMAC -/

theorem HMAC_Sum_eq (E : Env) (key input : Bytes) :
    ((hmac.New E key).Write input).Sum E = Slice.ofBytes (HMAC_SHA512 E key input) := by
  simp [HMAC.Sum, HMAC.Write, hmac.New, HMAC_SHA512, Hash.Write, Hash.Sum, sha512.New]

theorem HMAC_SHA512_length (E : Env) (hsize : ∀ m, (E.sha512 m).length = sha512.Size)
    (key input : Bytes) : (HMAC_SHA512 E key input).length = sha512.Size := by
  unfold HMAC_SHA512
  exact hsize _

theorem hmacSHA512256_bad_key (E : Env) (key input : Bytes)
    (hk : key.length ≠ E.CryptoAuthKeyBytes) :
    hmacSHA512256 E key input = .panics "Bad crypto_auth key length" := by
  simp [hmacSHA512256, hk]

theorem hmacSHA512256_run (E : Env) (hsize : ∀ m, (E.sha512 m).length = sha512.Size)
    (hc : E.CryptoAuthBytes ≤ sha512.Size) (key input : Bytes)
    (hk : key.length = E.CryptoAuthKeyBytes) :
    hmacSHA512256 E key input =
      .ok { elems := (HMAC_SHA512 E key input).take E.CryptoAuthBytes,
            spare := (HMAC_SHA512 E key input).drop E.CryptoAuthBytes } := by
  have hl := HMAC_SHA512_length E hsize key input
  unfold hmacSHA512256
  rw [if_neg (by simpa using hk)]
  simp only [HMAC_Sum_eq]
  rw [Slice.slice_ok _ _ _ (Nat.zero_le _)
    (by simp only [Slice.cap, Slice.ofBytes, List.length_nil]; omega)]
  simp [Slice.backing, Slice.ofBytes]

/-- C7: `hmacSHA512256` panics, with `"Bad crypto_auth key length"`, exactly when the key is
not `CryptoAuthKeyBytes` long; a key of that length gives a value for every input, and a key
of another length never does.  (The digest is 64 bytes and the truncation length is within
it.) -/
theorem hmacSHA512256_panics_iff_bad_key (E : Env)
    (hsize : ∀ m, (E.sha512 m).length = sha512.Size)
    (hc : E.CryptoAuthBytes ≤ sha512.Size) (key input : Bytes) :
    (hmacSHA512256 E key input = .panics "Bad crypto_auth key length" ↔
      key.length ≠ E.CryptoAuthKeyBytes) ∧
    ((hmacSHA512256 E key input).isPanic = true ↔ key.length ≠ E.CryptoAuthKeyBytes) ∧
    (key.length = E.CryptoAuthKeyBytes → ∃ tag, hmacSHA512256 E key input = .ok tag) ∧
    (key.length ≠ E.CryptoAuthKeyBytes → ∀ tag, hmacSHA512256 E key input ≠ .ok tag) := by
  by_cases hk : key.length = E.CryptoAuthKeyBytes
  · have hr := hmacSHA512256_run E hsize hc key input hk
    refine ⟨?_, ?_, fun _ => ⟨_, hr⟩, fun h => absurd hk h⟩
    · rw [hr]; simp [hk]
    · rw [hr]; simp [hk, Outcome.isPanic]
  · have hr := hmacSHA512256_bad_key E key input hk
    refine ⟨?_, ?_, fun h => absurd h hk, ?_⟩
    · rw [hr]; simp [hk]
    · rw [hr]; simp [hk, Outcome.isPanic]
    · intro _ tag
      rw [hr]
      exact fun h => Outcome.noConfusion h

/-- C7 at the spec's lengths: a 32-byte key with the empty input gives a value, the empty key
panics. -/
theorem hmacSHA512256_panics_iff_bad_key_witness :
    (∀ m, (sampleEnv.sha512 m).length = sha512.Size) ∧
    sampleEnv.CryptoAuthBytes ≤ sha512.Size ∧
    (∃ tag, hmacSHA512256 sampleEnv (List.replicate 32 0) [] = .ok tag) ∧
    hmacSHA512256 sampleEnv [] [] = .panics "Bad crypto_auth key length" :=
  ⟨fun m => by simp [sampleEnv, specEnv, sampleDigest, sha512.Size], by decide,
    (hmacSHA512256_panics_iff_bad_key sampleEnv
      (fun m => by simp [sampleEnv, specEnv, sampleDigest, sha512.Size]) (by decide)
      (List.replicate 32 0) []).2.2.1 (by decide),
    (hmacSHA512256_panics_iff_bad_key sampleEnv
      (fun m => by simp [sampleEnv, specEnv, sampleDigest, sha512.Size]) (by decide)
      [] []).1.2 (by decide)⟩

/-- C8: for a key of `CryptoAuthKeyBytes` bytes, `hmacSHA512256` returns the first
`CryptoAuthBytes` bytes of the full 64-byte HMAC-SHA512 of the input: a prefix of the full
MAC, of length `CryptoAuthBytes` whatever the key and input. -/
theorem hmacSHA512256_truncates_hmac (E : Env)
    (hsize : ∀ m, (E.sha512 m).length = sha512.Size)
    (hc : E.CryptoAuthBytes ≤ sha512.Size) (key input : Bytes)
    (hk : key.length = E.CryptoAuthKeyBytes) :
    ∃ tag, hmacSHA512256 E key input = .ok tag ∧
      tag.elems = (HMAC_SHA512 E key input).take E.CryptoAuthBytes ∧
      (HMAC_SHA512 E key input).length = 64 ∧
      tag.elems <+: HMAC_SHA512 E key input ∧
      tag.elems.length = E.CryptoAuthBytes := by
  have hl := HMAC_SHA512_length E hsize key input
  refine ⟨_, hmacSHA512256_run E hsize hc key input hk, rfl, hl, List.take_prefix _ _, ?_⟩
  simp only [List.length_take]
  omega

/-- C8 at the spec's lengths, for the all-zero key and the input `"hello"`. -/
theorem hmacSHA512256_truncates_hmac_witness :
    (∀ m, (sampleEnv.sha512 m).length = sha512.Size) ∧
    sampleEnv.CryptoAuthBytes ≤ sha512.Size ∧
    (List.replicate 32 (0 : Byte)).length = sampleEnv.CryptoAuthKeyBytes ∧
    ∃ tag, hmacSHA512256 sampleEnv (List.replicate 32 0) (ascii "hello") = .ok tag ∧
      tag.elems = (HMAC_SHA512 sampleEnv (List.replicate 32 0) (ascii "hello")).take
        sampleEnv.CryptoAuthBytes ∧
      (HMAC_SHA512 sampleEnv (List.replicate 32 0) (ascii "hello")).length = 64 ∧
      tag.elems <+: HMAC_SHA512 sampleEnv (List.replicate 32 0) (ascii "hello") ∧
      tag.elems.length = sampleEnv.CryptoAuthBytes :=
  ⟨fun m => by simp [sampleEnv, specEnv, sampleDigest, sha512.Size], by decide, by decide,
    hmacSHA512256_truncates_hmac sampleEnv
      (fun m => by simp [sampleEnv, specEnv, sampleDigest, sha512.Size]) (by decide)
      (List.replicate 32 0) (ascii "hello") (by decide)⟩

/-- C9: with the spec's constants (MAC key of 32 bytes, tag truncated to 16 bytes), for every
key of `CryptoAuthKeyBytes` bytes and every input the tag `hmacSHA512256` returns is exactly
16 bytes long. -/
theorem hmacSHA512256_tag_length_16 (nonceForMACKeyBox : Bytes → Nonce)
    (sha : Bytes → Bytes) (hsize : ∀ m, (sha m).length = sha512.Size) (key input : Bytes)
    (hk : key.length = (specEnv nonceForMACKeyBox sha).CryptoAuthKeyBytes) :
    ∃ tag, hmacSHA512256 (specEnv nonceForMACKeyBox sha) key input = .ok tag ∧
      tag.elems.length = 16 := by
  have hc : (specEnv nonceForMACKeyBox sha).CryptoAuthBytes ≤ sha512.Size := by
    show 16 ≤ sha512.Size
    decide
  have hl := HMAC_SHA512_length (specEnv nonceForMACKeyBox sha) hsize key input
  refine ⟨_, hmacSHA512256_run (specEnv nonceForMACKeyBox sha) hsize hc key input hk, ?_⟩
  simp only [List.length_take, hl]
  show min 16 sha512.Size = 16
  decide

/-- C9 for the all-zero 32-byte key and the empty input. -/
theorem hmacSHA512256_tag_length_16_witness :
    (∀ m, (sampleDigest m).length = sha512.Size) ∧
    (List.replicate 32 (0 : Byte)).length =
      (specEnv sampleNonce sampleDigest).CryptoAuthKeyBytes ∧
    ∃ tag, hmacSHA512256 (specEnv sampleNonce sampleDigest) (List.replicate 32 0) [] = .ok tag ∧
      tag.elems.length = 16 :=
  ⟨fun m => by simp [sampleDigest, sha512.Size], by decide,
    hmacSHA512256_tag_length_16 sampleNonce sampleDigest
      (fun m => by simp [sampleDigest, sha512.Size]) (List.replicate 32 0) [] (by decide)⟩

/-! ### Payload hash -/

/-- C10: `computePayloadHash` is the plain SHA-512 digest of
`headerHash ++ nonce[0..24) ++ payloadCiphertext`: writing the three inputs one after another
gives the digest of their concatenation written at once, and the result is 64 bytes long
(the digest length). -/
theorem computePayloadHash_eq (E : Env) (headerHash : Bytes) (nonce : Nonce)
    (payloadCiphertext : Bytes) :
    computePayloadHash E headerHash nonce payloadCiphertext =
        E.sha512 (headerHash ++ nonce.val ++ payloadCiphertext) ∧
      nonce.val.length = 24 ∧
      computePayloadHash E headerHash nonce payloadCiphertext =
        (sha512.New.Write (headerHash ++ nonce.val ++ payloadCiphertext)).Sum E [] ∧
      ((∀ m, (E.sha512 m).length = sha512.Size) →
        (computePayloadHash E headerHash nonce payloadCiphertext).length = 64) := by
  have h : computePayloadHash E headerHash nonce payloadCiphertext =
      E.sha512 (headerHash ++ nonce.val ++ payloadCiphertext) := by
    simp [computePayloadHash, Hash.Write, Hash.Sum, sha512.New]
  refine ⟨h, nonce.property, ?_, ?_⟩
  · rw [h]; simp [Hash.Write, Hash.Sum, sha512.New]
  · intro hsize
    rw [h]
    exact hsize _

/-- C10 for the header hash `"hdr"`, the all-zero nonce and the ciphertext `"hello"`. -/
theorem computePayloadHash_eq_witness :
    (∀ m, (sampleEnv.sha512 m).length = sha512.Size) ∧
    (computePayloadHash sampleEnv (ascii "hdr") (sampleNonce []) (ascii "hello")).length = 64 :=
  ⟨fun m => by simp [sampleEnv, specEnv, sampleDigest, sha512.Size],
    (computePayloadHash_eq sampleEnv (ascii "hdr") (sampleNonce []) (ascii "hello")).2.2.2
      (fun m => by simp [sampleEnv, specEnv, sampleDigest, sha512.Size])⟩

/-! ### Stream termination -/

theorem assertEndOfStream_fst (stream : msgpackStream) :
    (assertEndOfStream stream).1 =
      if stream.Read.1.2 = none then some GoError.ErrTrailingGarbage else stream.Read.1.2 := by
  unfold assertEndOfStream
  rfl

theorem assertEndOfStream_snd (stream : msgpackStream) :
    (assertEndOfStream stream).2 = stream.Read.2 := by
  unfold assertEndOfStream
  rfl

/-- C11: when the one extra `stream.Read` succeeds, `assertEndOfStream` returns
`ErrTrailingGarbage`; when it fails, `assertEndOfStream` returns exactly the error of the
read; so, for a read that does not itself report `ErrTrailingGarbage`, the result is
`ErrTrailingGarbage` if and only if the read succeeded.  The stream is left as the read
left it. -/
theorem assertEndOfStream_trailing_garbage_iff (stream : msgpackStream) :
    (stream.Read.1.2 = none →
      (assertEndOfStream stream).1 = some GoError.ErrTrailingGarbage) ∧
    (∀ e, stream.Read.1.2 = some e → (assertEndOfStream stream).1 = some e) ∧
    (stream.Read.1.2 ≠ some GoError.ErrTrailingGarbage →
      ((assertEndOfStream stream).1 = some GoError.ErrTrailingGarbage ↔
        stream.Read.1.2 = none)) ∧
    (assertEndOfStream stream).2 = stream.Read.2 := by
  rw [assertEndOfStream_fst]
  refine ⟨?_, ?_, ?_, assertEndOfStream_snd stream⟩
  · intro h
    rw [if_pos h]
  · intro e h
    rw [if_neg (by rw [h]; exact Option.some_ne_none e), h]
  · intro hne
    constructor
    · intro h
      by_contra hr
      rw [if_neg hr] at h
      exact hne h
    · intro h
      rw [if_pos h]

/-- C11 on a stream with one extra decodable value: the read succeeds and
`assertEndOfStream` reports `ErrTrailingGarbage`. -/
theorem assertEndOfStream_trailing_garbage_iff_witness :
    (msgpackStream.Read { pending := [.ok (ascii "extra")] }).1.2 = none ∧
    (assertEndOfStream { pending := [.ok (ascii "extra")] }).1 =
      some GoError.ErrTrailingGarbage :=
  ⟨rfl, (assertEndOfStream_trailing_garbage_iff { pending := [.ok (ascii "extra")] }).1 rfl⟩

/-- C12, as the spec states it, fails: on the stream with nothing left `assertEndOfStream`
does not return a nil error, it returns `io.EOF`. -/
theorem assertEndOfStream_empty_not_nil :
    (assertEndOfStream { pending := [] }).1 ≠ none ∧
    (assertEndOfStream { pending := [] }).1 = some io.EOF := by
  constructor
  · intro h
    exact Option.noConfusion (show some io.EOF = none from h)
  · rfl

/-- C12, amended: on a stream with nothing left the extra read fails with end-of-stream, and
whenever the extra read fails with end-of-stream `assertEndOfStream` returns that
end-of-stream error unchanged; it never returns a nil error. -/
theorem assertEndOfStream_end_of_stream (stream : msgpackStream) :
    (stream.pending = [] → stream.Read.1.2 = some io.EOF) ∧
    (stream.Read.1.2 = some io.EOF → (assertEndOfStream stream).1 = some io.EOF) ∧
    (assertEndOfStream stream).1 ≠ none := by
  refine ⟨?_, ?_, ?_⟩
  · intro h
    unfold msgpackStream.Read
    rw [h]
  · intro h
    rw [assertEndOfStream_fst, if_neg (by rw [h]; exact Option.some_ne_none _), h]
  · rw [assertEndOfStream_fst]
    by_cases h : stream.Read.1.2 = none
    · rw [if_pos h]
      exact Option.some_ne_none _
    · rw [if_neg h]
      exact h

/-- C12, amended, on the empty stream. -/
theorem assertEndOfStream_end_of_stream_witness :
    (msgpackStream.Read { pending := [] }).1.2 = some io.EOF ∧
    (assertEndOfStream { pending := [] }).1 = some io.EOF :=
  ⟨(assertEndOfStream_end_of_stream { pending := [] }).1 rfl,
    (assertEndOfStream_end_of_stream { pending := [] }).2.1
      ((assertEndOfStream_end_of_stream { pending := [] }).1 rfl)⟩

/-! ### Random source -/

/-- C13: with `(n, err)` the outcome of the random source on the buffer `b`, `randomFill`
returns nil exactly when `err` is nil and `n = len(b)`, returns `ErrInsufficientRandomness`
when `err` is nil and `n ≠ len(b)`, and returns the source's own error when `err` is not
nil. -/
theorem randomFill_result {ρ : Type} (rand : RandReader ρ) (r : ρ) (b : Bytes) :
    ((randomFill rand r b).1 = none ↔
      (rand.Read r b).2.2.2 = none ∧ (rand.Read r b).2.2.1 = (b.length : Int)) ∧
    ((rand.Read r b).2.2.2 = none → (rand.Read r b).2.2.1 ≠ (b.length : Int) →
      (randomFill rand r b).1 = some GoError.ErrInsufficientRandomness) ∧
    (∀ e, (rand.Read r b).2.2.2 = some e → (randomFill rand r b).1 = some e) := by
  unfold randomFill
  rcases hread : rand.Read r b with ⟨r', b', n, err⟩
  simp only []
  cases err with
  | none =>
    by_cases hn : n = (b.length : Int)
    · simp [hn]
    · simp [hn]
  | some e =>
    simp

/-- C13 on a source that fills one byte less than the 4-byte buffer and reports no error:
`randomFill` returns `ErrInsufficientRandomness`. -/
theorem randomFill_result_witness :
    (shortRand.Read () [0, 0, 0, 0]).2.2.2 = none ∧
    (shortRand.Read () [0, 0, 0, 0]).2.2.1 ≠ (([0, 0, 0, 0] : Bytes).length : Int) ∧
    (randomFill shortRand () [0, 0, 0, 0]).1 = some GoError.ErrInsufficientRandomness ∧
    (randomFill fullRand () [0, 0, 0, 0]).1 = none :=
  ⟨rfl, by decide, (randomFill_result shortRand () [0, 0, 0, 0]).2.1 rfl (by decide),
    (randomFill_result fullRand () [0, 0, 0, 0]).1.2 ⟨rfl, by decide⟩⟩

/-! ### Single-byte mutations -/

theorem singleByteChange_length_ne (xs xs' : Bytes) (h : singleByteChange xs xs') :
    xs.length = xs'.length ∧ xs ≠ xs' := by
  obtain ⟨i, b, hi, hb, rfl⟩ := h
  refine ⟨by simp, ?_⟩
  intro heq
  apply hb
  have h1 : (xs.set i b)[i]? = some b := by
    simp [hi]
  rw [← heq] at h1
  exact h1

theorem append3_ne_of_ne (h n c h' n' c' : Bytes) (hl : h.length = h'.length)
    (nl : n.length = n'.length) (hne : h ≠ h' ∨ n ≠ n' ∨ c ≠ c') :
    h ++ n ++ c ≠ h' ++ n' ++ c' := by
  intro heq
  rw [List.append_assoc, List.append_assoc] at heq
  obtain ⟨e1, e23⟩ := List.append_inj heq hl
  obtain ⟨e2, e3⟩ := List.append_inj e23 nl
  rcases hne with h1 | h2 | h3
  · exact h1 e1
  · exact h2 e2
  · exact h3 e3

theorem oneInputMutated_concat_ne (h : Bytes) (n : Nonce) (c : Bytes) (h' : Bytes) (n' : Nonce)
    (c' : Bytes) (hmut : oneInputMutated h n c h' n' c') :
    h ++ n.val ++ c ≠ h' ++ n'.val ++ c' := by
  have nl : n.val.length = n'.val.length := by rw [n.property, n'.property]
  rcases hmut with ⟨hh, _, _⟩ | ⟨hh, hn, _⟩ | ⟨hh, _, hc⟩
  · obtain ⟨l, ne⟩ := singleByteChange_length_ne _ _ hh
    exact append3_ne_of_ne _ _ _ _ _ _ l nl (Or.inl ne)
  · obtain ⟨_, ne⟩ := singleByteChange_length_ne _ _ hn
    exact append3_ne_of_ne _ _ _ _ _ _ (by rw [hh]) nl (Or.inr (Or.inl ne))
  · obtain ⟨_, ne⟩ := singleByteChange_length_ne _ _ hc
    exact append3_ne_of_ne _ _ _ _ _ _ (by rw [hh]) nl (Or.inr (Or.inr ne))

theorem computePayloadHash_unfold (E : Env) (headerHash : Bytes) (nonce : Nonce)
    (payloadCiphertext : Bytes) :
    computePayloadHash E headerHash nonce payloadCiphertext =
      E.sha512 (headerHash ++ nonce.val ++ payloadCiphertext) := by
  simp [computePayloadHash, Hash.Write, Hash.Sum, sha512.New]

/-- C14: when a single byte of `headerHash`, of `nonce` or of the ciphertext is changed
(lengths unchanged), the string `headerHash ++ nonce ++ ciphertext` changes; so
`computePayloadHash` differs unless SHA-512 collides on the two strings, and for a key of
`CryptoAuthKeyBytes` bytes the tag `hmacSHA512256` computes over the string differs unless the
truncated HMAC under that key collides on the two strings. -/
theorem single_byte_mutation_changes_digest (E : Env) (h : Bytes) (n : Nonce) (c : Bytes)
    (h' : Bytes) (n' : Nonce) (c' : Bytes) (hmut : oneInputMutated h n c h' n' c') :
    h ++ n.val ++ c ≠ h' ++ n'.val ++ c' ∧
    (E.sha512 (h ++ n.val ++ c) ≠ E.sha512 (h' ++ n'.val ++ c') →
      computePayloadHash E h n c ≠ computePayloadHash E h' n' c') ∧
    (∀ key : Bytes, key.length = E.CryptoAuthKeyBytes →
      (∀ m, (E.sha512 m).length = sha512.Size) → E.CryptoAuthBytes ≤ sha512.Size →
      (HMAC_SHA512 E key (h ++ n.val ++ c)).take E.CryptoAuthBytes ≠
        (HMAC_SHA512 E key (h' ++ n'.val ++ c')).take E.CryptoAuthBytes →
      hmacSHA512256 E key (h ++ n.val ++ c) ≠ hmacSHA512256 E key (h' ++ n'.val ++ c')) := by
  refine ⟨oneInputMutated_concat_ne h n c h' n' c' hmut, ?_, ?_⟩
  · intro hcol
    rw [computePayloadHash_unfold, computePayloadHash_unfold]
    exact hcol
  · intro key hk hsize hc hcol heq
    rw [hmacSHA512256_run E hsize hc key _ hk, hmacSHA512256_run E hsize hc key _ hk] at heq
    injection heq with heq
    injection heq with he _
    exact hcol he

set_option maxRecDepth 20000 in
/-- C14 for the payload `"hello"` against `"hellp"` under the same header hash `"hdr"`, the
same nonce and the same all-zero key, with the byte-sum digest. -/
theorem single_byte_mutation_changes_digest_witness :
    oneInputMutated (ascii "hdr") (sampleNonce []) (ascii "hello")
      (ascii "hdr") (sampleNonce []) (ascii "hellp") ∧
    computePayloadHash sumEnv (ascii "hdr") (sampleNonce []) (ascii "hello") ≠
      computePayloadHash sumEnv (ascii "hdr") (sampleNonce []) (ascii "hellp") ∧
    hmacSHA512256 sumEnv (List.replicate 32 0)
        (ascii "hdr" ++ (sampleNonce []).val ++ ascii "hello") ≠
      hmacSHA512256 sumEnv (List.replicate 32 0)
        (ascii "hdr" ++ (sampleNonce []).val ++ ascii "hellp") :=
  have hmut : oneInputMutated (ascii "hdr") (sampleNonce []) (ascii "hello")
      (ascii "hdr") (sampleNonce []) (ascii "hellp") :=
    Or.inr (Or.inr ⟨rfl, rfl, 4, byteOf 112, by decide, by decide, by decide⟩)
  ⟨hmut,
    (single_byte_mutation_changes_digest sumEnv _ _ _ _ _ _ hmut).2.1 (by decide),
    (single_byte_mutation_changes_digest sumEnv _ _ _ _ _ _ hmut).2.2 (List.replicate 32 0)
      (by decide) (fun m => by simp [sumEnv, specEnv, sumDigest, sha512.Size]) (by decide)
      (by decide)⟩

/-! ### Structure of the pre-images -/

theorem nullTerminated_layout (F T d : Bytes) :
    (F ++ ([0] ++ (T ++ ([0] ++ d)))).length = F.length + 1 + T.length + 1 + d.length ∧
    (F ++ ([0] ++ (T ++ ([0] ++ d))))[F.length]? = some 0 ∧
    (F ++ ([0] ++ (T ++ ([0] ++ d))))[F.length + 1 + T.length]? = some 0 ∧
    (F ++ ([0] ++ (T ++ ([0] ++ d)))).drop (F.length + 1 + T.length + 1) = d := by
  refine ⟨?_, ?_, ?_, ?_⟩
  · simp only [List.length_append, List.length_singleton]
    omega
  · rw [List.getElem?_append_right (le_refl _)]
    simp
  · rw [List.getElem?_append_right (by omega)]
    have e1 : F.length + 1 + T.length - F.length = T.length + 1 := by omega
    rw [e1, List.getElem?_append_right (by simp)]
    have e2 : T.length + 1 - ([0] : Bytes).length = T.length := by simp
    rw [e2, List.getElem?_append_right (le_refl _)]
    simp
  · have e : F.length + 1 + T.length + 1 = F.length + (1 + (T.length + 1)) := by omega
    rw [e, List.drop_append]
    show List.drop (1 + (T.length + 1)) ((0 : Byte) :: (T ++ ([0] ++ d))) = d
    rw [Nat.add_comm 1 (T.length + 1), List.drop_succ_cons, List.drop_append]
    rfl

/-- C15, as the spec states it, fails for `detachedSignatureInputFromHash`: given the empty
byte string as its hash, the output is not 64 bytes longer than the two terminated tags, and
nothing follows the second terminator. -/
theorem detachedSignatureInputFromHash_not_fixed_length :
    (detachedSignatureInputFromHash sampleEnv []).length ≠
        sampleEnv.SaltpackFormatName.length + 1 +
          sampleEnv.SignatureDetachedString.length + 1 + 64 ∧
    ((detachedSignatureInputFromHash sampleEnv []).drop
        (sampleEnv.SaltpackFormatName.length + 1 +
          sampleEnv.SignatureDetachedString.length + 1)).length ≠ 64 := by
  constructor <;> decide

/-- C15, amended: with a 64-byte digest, every pre-image of `attachedSignatureInput` and of
`detachedSignatureInput` is `len(SaltpackFormatName) + 1 + len(tag) + 1 + 64` bytes long,
has a zero byte after the format name and after the tag, and its part after the second
terminator is 64 bytes long; the pre-image of `detachedSignatureInputFromHash(h)` has the same
two terminated tags followed by `h` itself, so its length is
`len(SaltpackFormatName) + 1 + len(tag) + 1 + len(h)`. -/
theorem signature_preimage_structure (E : Env)
    (hsize : ∀ m, (E.sha512 m).length = sha512.Size) :
    (∀ (H : Bytes) (block : SignatureBlock),
      (attachedSignatureInput E H block).length =
          E.SaltpackFormatName.length + 1 + E.SignatureAttachedString.length + 1 + 64 ∧
        (attachedSignatureInput E H block)[E.SaltpackFormatName.length]? = some 0 ∧
        (attachedSignatureInput E H block)[E.SaltpackFormatName.length + 1 +
          E.SignatureAttachedString.length]? = some 0 ∧
        ((attachedSignatureInput E H block).drop (E.SaltpackFormatName.length + 1 +
          E.SignatureAttachedString.length + 1)).length = 64) ∧
    (∀ (H C : Bytes),
      (detachedSignatureInput E H C).length =
          E.SaltpackFormatName.length + 1 + E.SignatureDetachedString.length + 1 + 64 ∧
        (detachedSignatureInput E H C)[E.SaltpackFormatName.length]? = some 0 ∧
        (detachedSignatureInput E H C)[E.SaltpackFormatName.length + 1 +
          E.SignatureDetachedString.length]? = some 0 ∧
        ((detachedSignatureInput E H C).drop (E.SaltpackFormatName.length + 1 +
          E.SignatureDetachedString.length + 1)).length = 64) ∧
    (∀ (h : Bytes),
      (detachedSignatureInputFromHash E h).length =
          E.SaltpackFormatName.length + 1 + E.SignatureDetachedString.length + 1 + h.length ∧
        (detachedSignatureInputFromHash E h)[E.SaltpackFormatName.length]? = some 0 ∧
        (detachedSignatureInputFromHash E h)[E.SaltpackFormatName.length + 1 +
          E.SignatureDetachedString.length]? = some 0 ∧
        (detachedSignatureInputFromHash E h).drop (E.SaltpackFormatName.length + 1 +
          E.SignatureDetachedString.length + 1) = h) := by
  have h64 : sha512.Size = 64 := rfl
  refine ⟨?_, ?_, ?_⟩
  · intro H block
    rw [attachedSignatureInput_unfold]
    obtain ⟨l1, l2, l3, l4⟩ := nullTerminated_layout E.SaltpackFormatName
      E.SignatureAttachedString (E.sha512 (H ++ (BE8 block.seqno ++ block.PayloadChunk)))
    rw [hsize, h64] at l1
    exact ⟨l1, l2, l3, by rw [l4, hsize, h64]⟩
  · intro H C
    rw [detachedSignatureInput_unfold, detachedSignatureInputFromHash_unfold]
    obtain ⟨l1, l2, l3, l4⟩ := nullTerminated_layout E.SaltpackFormatName
      E.SignatureDetachedString (E.sha512 (H ++ C))
    rw [hsize, h64] at l1
    exact ⟨l1, l2, l3, by rw [l4, hsize, h64]⟩
  · intro h
    rw [detachedSignatureInputFromHash_unfold]
    exact nullTerminated_layout E.SaltpackFormatName E.SignatureDetachedString h

/-- C15, amended, at the spec's tags with a 64-byte stand-in digest: the attached pre-image of
the empty chunk is 8 + 1 + 18 + 1 + 64 bytes long. -/
theorem signature_preimage_structure_witness :
    (∀ m, (sampleEnv.sha512 m).length = sha512.Size) ∧
    (attachedSignatureInput sampleEnv [] { seqno := 0, PayloadChunk := [] }).length =
      8 + 1 + 18 + 1 + 64 :=
  ⟨fun m => by simp [sampleEnv, specEnv, sampleDigest, sha512.Size],
    ((signature_preimage_structure sampleEnv
      (fun m => by simp [sampleEnv, specEnv, sampleDigest, sha512.Size])).1 []
        { seqno := 0, PayloadChunk := [] }).1⟩

/-! ### MAC key: determinism and bounds -/

theorem computeMACKeyIn_fst {W PK : Type} (E : Env)
    (nonceForMACKeyBox : Bytes → W → Nonce × W) (secret : BoxSecretKeyIn W PK) (pub : PK)
    (headerHash : Bytes) (w : W) :
    (computeMACKeyIn E nonceForMACKeyBox secret pub headerHash w).1 =
      (secret.Box pub (nonceForMACKeyBox headerHash w).1
        (List.replicate E.CryptoAuthKeyBytes 0) (nonceForMACKeyBox headerHash w).2).1.slice
          poly1305.TagSize (poly1305.TagSize + E.CryptoAuthKeyBytes) := by
  unfold computeMACKeyIn
  rfl

/-- When neither the nonce derivation nor the box touches the world, the run in a world is
the function `computeMACKey` and the world is left as it was. -/
theorem computeMACKeyIn_pure {W PK : Type} (E : Env) (secret : BoxSecretKey PK) (pub : PK)
    (headerHash : Bytes) (w : W) :
    computeMACKeyIn E (fun h w => (E.nonceForMACKeyBox h, w))
        { Box := fun p n m w => (secret.Box p n m, w) } pub headerHash w =
      (computeMACKey E secret pub headerHash, w) := by
  unfold computeMACKeyIn computeMACKey
  rfl

/-- A box that draws on the world gives different MAC keys from different worlds: a run of
`computeMACKeyIn` does depend on the world when the box does. -/
theorem computeMACKeyIn_randomizedBox_differs :
    (computeMACKeyIn sampleEnv countingNonce randomizedBox () [] 0).1 ≠
      (computeMACKeyIn sampleEnv countingNonce randomizedBox () [] 5).1 := by
  decide

/-- C16: `computeMACKey` is deterministic.  Run in any two worlds (states of the random sources
and of all mutable state) with the same secret key, public key and header hash, it returns
the same MAC key, provided `Box` is a deterministic function of its key, peer key, nonce and
plaintext and the nonce derivation is a function of the header hash; in particular a second
call made in the world the first call left returns the same MAC key as the first. -/
theorem computeMACKeyIn_deterministic {W PK : Type} (E : Env)
    (nonceForMACKeyBox : Bytes → W → Nonce × W) (secret : BoxSecretKeyIn W PK)
    (hnonce : ∀ (h : Bytes) (w w' : W),
      (nonceForMACKeyBox h w).1 = (nonceForMACKeyBox h w').1)
    (hbox : ∀ (p : PK) (n : Nonce) (m : Bytes) (w w' : W),
      (secret.Box p n m w).1 = (secret.Box p n m w').1)
    (pub : PK) (headerHash : Bytes) (w w' : W) :
    (computeMACKeyIn E nonceForMACKeyBox secret pub headerHash w).1 =
        (computeMACKeyIn E nonceForMACKeyBox secret pub headerHash w').1 ∧
    (computeMACKeyIn E nonceForMACKeyBox secret pub headerHash
        (computeMACKeyIn E nonceForMACKeyBox secret pub headerHash w).2).1 =
      (computeMACKeyIn E nonceForMACKeyBox secret pub headerHash w).1 := by
  have key : ∀ v v' : W,
      (computeMACKeyIn E nonceForMACKeyBox secret pub headerHash v).1 =
        (computeMACKeyIn E nonceForMACKeyBox secret pub headerHash v').1 := by
    intro v v'
    rw [computeMACKeyIn_fst, computeMACKeyIn_fst, hnonce headerHash v v',
      hbox pub _ _ (nonceForMACKeyBox headerHash v).2 (nonceForMACKeyBox headerHash v').2]
  exact ⟨key w w', key _ w⟩

/-- C16 for a nonce derivation and a box that both count their calls in the world but compute
their results from their arguments alone: the runs from world 0 and from world 7 return the
same MAC key, the bytes 16 to 47 of the box. -/
theorem computeMACKeyIn_deterministic_witness :
    (∀ (h : Bytes) (w w' : Nat), (countingNonce h w).1 = (countingNonce h w').1) ∧
    (∀ (p : Unit) (n : Nonce) (m : Bytes) (w w' : Nat),
      (countingBox.Box p n m w).1 = (countingBox.Box p n m w').1) ∧
    (computeMACKeyIn sampleEnv countingNonce countingBox () (ascii "hdr") 0).1 =
      (computeMACKeyIn sampleEnv countingNonce countingBox () (ascii "hdr") 7).1 :=
  ⟨fun _ _ _ => rfl, fun _ _ _ _ _ => rfl,
    (computeMACKeyIn_deterministic sampleEnv countingNonce countingBox (fun _ _ _ => rfl)
      (fun _ _ _ _ _ => rfl) () (ascii "hdr") 0 7).1⟩

theorem Slice.len_le_cap (s : Slice) : s.len ≤ s.cap := by
  unfold Slice.len Slice.cap
  omega

theorem Slice.slice_panics (s : Slice) (lo hi : Nat) (h : s.cap < hi) :
    s.slice lo hi = .panics sliceBoundsMsg := by
  unfold Slice.slice
  rw [if_neg (by omega)]

theorem Slice.slice_elems_length (s : Slice) (lo hi : Nat) (h1 : lo ≤ hi) (h2 : hi ≤ s.cap) :
    ((s.backing.drop lo).take (hi - lo)).length = hi - lo := by
  unfold Slice.cap at h2
  simp only [List.length_take, List.length_drop, Slice.backing, List.length_append]
  omega

theorem hmacSHA512256_good_key (E : Env) (key input : Bytes)
    (hk : key.length = E.CryptoAuthKeyBytes) :
    hmacSHA512256 E key input ≠ .panics "Bad crypto_auth key length" := by
  unfold hmacSHA512256
  rw [if_neg (by simpa using hk)]
  simp only [Slice.slice]
  split
  · exact fun h => Outcome.noConfusion h
  · intro h
    injection h with h
    exact absurd h (by decide)

/-- C17: with `box` the slice `secret.Box` returns, if `box` has at least
`poly1305.TagSize + CryptoAuthKeyBytes` bytes (or just that much capacity) the slice
expression of `computeMACKey` does not fail and the MAC key has exactly `CryptoAuthKeyBytes`
bytes, so `hmacSHA512256` never rejects it as a bad key; if `box` has less capacity than that,
the slice expression panics. -/
theorem computeMACKey_slice_bounds {PK : Type} (E : Env) (secret : BoxSecretKey PK) (pub : PK)
    (headerHash : Bytes) :
    (poly1305.TagSize + E.CryptoAuthKeyBytes ≤
        (secret.Box pub (E.nonceForMACKeyBox headerHash)
          (List.replicate E.CryptoAuthKeyBytes 0)).len →
      ∃ macKey, computeMACKey E secret pub headerHash = .ok macKey ∧
        macKey.elems.length = E.CryptoAuthKeyBytes ∧
        ∀ input, hmacSHA512256 E macKey.elems input ≠ .panics "Bad crypto_auth key length") ∧
    (poly1305.TagSize + E.CryptoAuthKeyBytes ≤
        (secret.Box pub (E.nonceForMACKeyBox headerHash)
          (List.replicate E.CryptoAuthKeyBytes 0)).cap →
      ∃ macKey, computeMACKey E secret pub headerHash = .ok macKey ∧
        macKey.elems.length = E.CryptoAuthKeyBytes) ∧
    ((secret.Box pub (E.nonceForMACKeyBox headerHash)
          (List.replicate E.CryptoAuthKeyBytes 0)).cap <
        poly1305.TagSize + E.CryptoAuthKeyBytes →
      computeMACKey E secret pub headerHash = .panics sliceBoundsMsg) := by
  have hcap : ∀ box : Slice,
      secret.Box pub (E.nonceForMACKeyBox headerHash)
        (List.replicate E.CryptoAuthKeyBytes 0) = box →
      poly1305.TagSize + E.CryptoAuthKeyBytes ≤ box.cap →
      ∃ macKey, computeMACKey E secret pub headerHash = .ok macKey ∧
        macKey.elems.length = E.CryptoAuthKeyBytes := by
    intro box hb hc
    have hrun : computeMACKey E secret pub headerHash =
        .ok { elems := (box.backing.drop poly1305.TagSize).take
                (poly1305.TagSize + E.CryptoAuthKeyBytes - poly1305.TagSize),
              spare := box.backing.drop (poly1305.TagSize + E.CryptoAuthKeyBytes) } := by
      unfold computeMACKey
      simp only [hb]
      exact Slice.slice_ok box _ _ (by omega) hc
    refine ⟨_, hrun, ?_⟩
    have := Slice.slice_elems_length box poly1305.TagSize
      (poly1305.TagSize + E.CryptoAuthKeyBytes) (by omega) hc
    simpa using this
  generalize hb : secret.Box pub (E.nonceForMACKeyBox headerHash)
    (List.replicate E.CryptoAuthKeyBytes 0) = box at hcap
  refine ⟨?_, ?_, ?_⟩
  · intro hlen
    obtain ⟨macKey, hrun, hl⟩ := hcap box rfl (le_trans hlen (Slice.len_le_cap box))
    exact ⟨macKey, hrun, hl, fun input => hmacSHA512256_good_key E _ input hl⟩
  · intro hc
    exact hcap box rfl hc
  · intro hc
    unfold computeMACKey
    simp only [hb]
    exact Slice.slice_panics box _ _ hc

/-- C17 at the spec's lengths: the 48-byte stand-in box gives a 32-byte MAC key, and a box
that returns three bytes makes the slice expression panic. -/
theorem computeMACKey_slice_bounds_witness :
    (poly1305.TagSize + sampleEnv.CryptoAuthKeyBytes ≤
        (sampleBox.Box () (sampleEnv.nonceForMACKeyBox [])
          (List.replicate sampleEnv.CryptoAuthKeyBytes 0)).len ∧
      ∃ macKey, computeMACKey sampleEnv sampleBox () [] = .ok macKey ∧
        macKey.elems.length = sampleEnv.CryptoAuthKeyBytes ∧
        ∀ input, hmacSHA512256 sampleEnv macKey.elems input ≠
          .panics "Bad crypto_auth key length") ∧
    computeMACKey sampleEnv { Box := fun _ _ _ => Slice.ofBytes [1, 2, 3] } () [] =
      .panics sliceBoundsMsg :=
  ⟨⟨by decide, (computeMACKey_slice_bounds sampleEnv sampleBox () []).1 (by decide)⟩,
    (computeMACKey_slice_bounds sampleEnv { Box := fun _ _ _ => Slice.ofBytes [1, 2, 3] }
      () []).2.2 (by decide)⟩

/-! ### The hashed string of attached signatures -/

theorem attachedHashedString_eq (headerHash : Bytes) (block : SignatureBlock) :
    attachedHashedString headerHash block =
      headerHash ++ BE8 block.seqno ++ block.PayloadChunk := by
  simp [attachedHashedString, Hash.Write, sha512.New, binary.WriteBigEndianUint64,
    Writer.Write, PutUint64_eq_BE8]

theorem attachedSignatureInput_hashes_string (E : Env) (headerHash : Bytes)
    (block : SignatureBlock) :
    attachedSignatureInput E headerHash block =
      E.SaltpackFormatName ++ [0] ++ E.SignatureAttachedString ++ [0] ++
        E.sha512 (attachedHashedString headerHash block) := by
  rw [attachedSignatureInput_unfold, attachedHashedString_eq]
  simp [List.append_assoc]

/-- C18: the string `headerHash ++ BE8(seqno) ++ chunk` that `attachedSignatureInput` hashes
determines the header hash, the 64-bit sequence number and the chunk when the header hashes
have equal length; without the equal-length condition it does not: two distinct triples with
header hashes of different lengths give the same hashed string and the same pre-image. -/
theorem attachedHashedString_injective_iff_len (E : Env) :
    (∀ (H : Bytes) (block : SignatureBlock),
      attachedHashedString H block = H ++ BE8 block.seqno ++ block.PayloadChunk ∧
      attachedSignatureInput E H block =
        E.SaltpackFormatName ++ [0] ++ E.SignatureAttachedString ++ [0] ++
          E.sha512 (attachedHashedString H block)) ∧
    (∀ (H1 H2 : Bytes) (s1 s2 : Nat) (C1 C2 : Bytes), s1 < 2 ^ 64 → s2 < 2 ^ 64 →
      H1.length = H2.length →
      H1 ++ BE8 s1 ++ C1 = H2 ++ BE8 s2 ++ C2 →
      H1 = H2 ∧ s1 = s2 ∧ C1 = C2) ∧
    (∃ (H1 H2 : Bytes) (s1 s2 : Nat) (C1 C2 : Bytes), s1 < 2 ^ 64 ∧ s2 < 2 ^ 64 ∧
      H1.length ≠ H2.length ∧ (H1, s1, C1) ≠ (H2, s2, C2) ∧
      H1 ++ BE8 s1 ++ C1 = H2 ++ BE8 s2 ++ C2 ∧
      attachedSignatureInput E H1 { seqno := s1, PayloadChunk := C1 } =
        attachedSignatureInput E H2 { seqno := s2, PayloadChunk := C2 }) := by
  refine ⟨fun H block => ⟨attachedHashedString_eq H block,
    attachedSignatureInput_hashes_string E H block⟩, ?_, ?_⟩
  · intro H1 H2 s1 s2 C1 C2 hs1 hs2 hl heq
    rw [List.append_assoc, List.append_assoc] at heq
    obtain ⟨e1, e23⟩ := List.append_inj heq hl
    obtain ⟨e2, e3⟩ := List.append_inj e23 (by rw [BE8_length, BE8_length])
    exact ⟨e1, BE8_injective s1 s2 hs1 hs2 e2, e3⟩
  · have hstr : ([] : Bytes) ++ BE8 0 ++ [0] = [0] ++ BE8 0 ++ [] := by decide
    refine ⟨[], [0], 0, 0, [0], [], by norm_num, by norm_num, by decide, by decide, hstr, ?_⟩
    rw [attachedSignatureInput_hashes_string, attachedSignatureInput_hashes_string,
      attachedHashedString_eq, attachedHashedString_eq]
    exact congrArg (fun x => E.SaltpackFormatName ++ [0] ++ E.SignatureAttachedString ++
      [0] ++ E.sha512 x) hstr

/-- C18 for two one-byte header hashes: equal hashed strings give back equal fields. -/
theorem attachedHashedString_injective_iff_len_witness :
    (5 : Nat) < 2 ^ 64 ∧ ([1] : Bytes).length = ([1] : Bytes).length ∧
    ([1] : Bytes) ++ BE8 5 ++ [2] = [1] ++ BE8 5 ++ [2] ∧
    (([1] : Bytes) = [1] ∧ (5 : Nat) = 5 ∧ ([2] : Bytes) = [2]) :=
  ⟨by norm_num, rfl, rfl,
    (attachedHashedString_injective_iff_len sampleEnv).2.1 [1] [1] 5 5 [2] [2]
      (by norm_num) (by norm_num) rfl rfl⟩

/-! ### Payload hash and detached signatures -/

/-- C19: `computePayloadHash(h, n, c)` is `SHA512(h ++ n ++ c)`, the very hash
`detachedSignatureInput` computes for the plaintext `n ++ c`; hence
`detachedSignatureInput(h, n ++ c) = detachedSignatureInputFromHash(computePayloadHash(h, n, c))`. -/
theorem computePayloadHash_is_detached_hash (E : Env) (h : Bytes) (n : Nonce) (c : Bytes) :
    computePayloadHash E h n c = E.sha512 (h ++ n.val ++ c) ∧
    detachedSignatureInput E h (n.val ++ c) =
      detachedSignatureInputFromHash E (E.sha512 (h ++ (n.val ++ c))) ∧
    detachedSignatureInput E h (n.val ++ c) =
      detachedSignatureInputFromHash E (computePayloadHash E h n c) := by
  refine ⟨computePayloadHash_unfold E h n c, detachedSignatureInput_unfold E h _, ?_⟩
  rw [detachedSignatureInput_unfold, computePayloadHash_unfold, List.append_assoc]

end Saltpack
